import Mathlib

/-!
# Verification of the collective-instance scheduling core

A shallow embedding of `lib/pacemaker/pcmk_sched_instances.c`: instance
assignment (eligibility filtering, per-node counting, the two-pass collective
assigner) and ordered-action interleaving (the can-interleave predicate, the
`current` selector of the interleaved path, the collective action-flag fold,
the instance-state summarizer, and the compatibility matcher's public
entry point `pcmk__instance_matches`).

C machine integers are modelled as `Int` (scores, caps, counters) or `Nat`
(node counts, which are only ever incremented from zero).  Pacemaker's
distinguished scores `INFINITY`/`-INFINITY` are the concrete values
`1000000`/`-1000000`, as in the C headers.  Strings (uuids, task names) are
`List Char`.  GLib hash tables keyed by node id are association lists looked
up by key; GLists are Lean lists.

External collaborators (listed in the spec as consumed helpers: the
per-resource `assign` callback, `crm_is_true`, `resource_location`,
`find_first_action`, `get_complex_task`, `pcmk__ends_with`, the node
availability predicate) are not part of the repository source; they are
modelled from the spec's description of them, each marked
`Modelled from the spec:` in its doc comment.
-/

namespace PacemakerInstances

/-- Pacemaker's distinguished score `INFINITY` (`CRM_SCORE_INFINITY`). -/
def scoreInfinity : Int := 1000000

/-- Pacemaker's distinguished score `-INFINITY`. -/
def scoreNegInfinity : Int := -1000000

/-- Association-list lookup by node id, the model of a GHashTable lookup
keyed by `node->details->id`. -/
def alookup {β : Type} (k : Nat) : List (Nat × β) → Option β
  | [] => none
  | e :: rest => if e.1 = k then some e.2 else alookup k rest

/-- Modelled from the spec: the external string helper `pcmk__ends_with(s, m)`
holds exactly when `m` is a suffix of `s`. -/
def pcmkEndsWith (s m : List Char) : Bool := decide (m <:+ s)

theorem pcmkEndsWith_iff (s m : List Char) : pcmkEndsWith s m = true ↔ m <:+ s := by
  simp [pcmkEndsWith]

/-! ## Node and resource data model for assignment -/

/-- The liveness facts about one cluster node that the core consults:
`availFF` is `pcmk__node_available(node, false, false)` and `availTF` is
`pcmk__node_available(node, true, false)` (the only two instantiations the
file uses).  Modelled from the spec: node availability is an external
predicate of the node alone. -/
structure NodeInfo where
  availFF : Bool
  availTF : Bool
deriving DecidableEq

/-- One entry of the parent collective's `allowed_nodes` table: the parent's
score for the node and the mutable count of instances assigned there. -/
structure ParentEntry where
  weight : Int
  count : Nat
deriving DecidableEq

/-- The parent collective's `allowed_nodes` table, keyed by node id.
`pcmk__top_allowed_node(instance, node)` is `alookup node.id` in this table. -/
abbrev PTab := List (Nat × ParentEntry)

/-- A colocation constraint as seen by `append_parent_colocation`: its score,
and the outcome of the external predicate `pcmk__colocation_has_influence`
for each prospective child (by child id). -/
structure Colocation where
  score : Int
  influence : Nat → Bool

/-- A resource-level location record created by the external helper
`resource_location(rsc, node, score, tag, data_set)`. -/
structure LocEntry where
  tag : String
  score : Int
  node : Option Nat
deriving DecidableEq

/-- A clone instance or bundle replica container, with the fields of
`pe_resource_t` that the assignment code reads or writes: the flag set
(`orphan`, `provisional`, `allocating`, `failed`, `managed`), the current
node (`running_on`, reduced to its head as by `pe__current_node`), the
assigned node (`fns->location(instance, NULL, FALSE)`), the instance's own
`allowed_nodes` score table, the two colocation lists appended to by
`append_parent_colocation`, and the resource-level locations added by
`resource_location`. -/
structure Instance where
  id : Nat
  orphan : Bool
  provisional : Bool
  allocating : Bool
  failed : Bool
  managed : Bool
  running_on : Option Nat
  assigned : Option Nat
  allowed : List (Nat × Int)
  thisWith : List Colocation
  withThis : List Colocation
  locations : List LocEntry

/-! ## 4.1 Eligibility filter: `can_run_instance` -/

/-- Translation of `can_run_instance(instance, node, max_per_node)`
(pcmk_sched_instances.c lines 31-75): the chain of early-return checks —
orphan, node availability, parent's view of the node (`top_allowed_node`),
the parent view's weight, the parent view's count against the cap. -/
def can_run_instance (env : Nat → NodeInfo) (ptab : PTab) (inst : Instance)
    (node : Nat) (max_per_node : Int) : Bool :=
  if inst.orphan then false
  else if !(env node).availFF then false
  else
    match alookup node ptab with
    | none => false
    | some allowedNode =>
      if allowedNode.weight < 0 then false
      else if max_per_node ≤ (allowedNode.count : Int) then false
      else true

theorem can_run_instance_eligible_aux (env : Nat → NodeInfo) (ptab : PTab)
    (inst : Instance) (node : Nat) (max_per_node : Int) :
    can_run_instance env ptab inst node max_per_node = true ↔
      (inst.orphan = false ∧ (env node).availFF = true ∧
       ∃ allowedNode, alookup node ptab = some allowedNode ∧
         0 ≤ allowedNode.weight ∧ (allowedNode.count : Int) < max_per_node) := by
  unfold can_run_instance
  cases horph : inst.orphan with
  | true => simp
  | false =>
    cases hav : (env node).availFF with
    | false => simp
    | true =>
      cases hl : alookup node ptab with
      | none => simp
      | some a =>
        by_cases hw : a.weight < 0
        · simp [hw]
        · by_cases hc : max_per_node ≤ (a.count : Int)
          · simp [hw, hc]
          · simp [hw, hc]
            omega

/-- C2: the eligibility filter returns true iff all five conditions hold —
the instance is not orphaned, the node passes `available(false, false)`, the
parent's view of the node exists, that view's weight is nonnegative, and that
view's count is strictly below `max_per_node`. -/
theorem can_run_instance_iff_eligible (env : Nat → NodeInfo) (ptab : PTab)
    (inst : Instance) (node : Nat) (max_per_node : Int) :
    can_run_instance env ptab inst node max_per_node = true ↔
      (inst.orphan = false ∧ (env node).availFF = true ∧
       ∃ allowedNode, alookup node ptab = some allowedNode ∧
         0 ≤ allowedNode.weight ∧ (allowedNode.count : Int) < max_per_node) :=
  can_run_instance_eligible_aux env ptab inst node max_per_node

/-! ## 4.5 setup: the optimal-per-node computation -/

/-- Conversion of a C `int` value to the `unsigned int` it becomes in an
arithmetic expression mixing the two types (two's complement, 32 bits). -/
def cUInt32 (x : Int) : Nat := (x % 4294967296).toNat

/-- Conversion of a C `unsigned int` expression back to the `int` it is
stored into (GCC-style wraparound). -/
def uintToCInt (n : Nat) : Int :=
  if n % 4294967296 < 2147483648 then ((n % 4294967296 : Nat) : Int)
  else ((n % 4294967296 : Nat) : Int) - 4294967296

/-- Translation of the `optimal_per_node` computation in
`pcmk__assign_instances` (lines 320-331): start from 0, divide only when
`available_nodes > 0` (`max_total` is an `int`, `available_nodes` an
`unsigned int`, so the C division happens on the unsigned conversion),
then clamp the result up to 1. -/
def optimal_per_node (max_total : Int) (available_nodes : Nat) : Int :=
  let q : Int :=
    if 0 < available_nodes then uintToCInt (cUInt32 max_total / available_nodes) else 0
  if q < 1 then 1 else q

/-- C3 counterexample: at `max_total = 2` and zero available nodes the code
computes 1, while the claimed formula `max(1, floor(max_total / max(1,
available)))` gives 2. -/
theorem optimal_per_node_formula_fails_at_zero_nodes :
    optimal_per_node 2 0 = 1 ∧ max 1 ((2 : Int) / ((max 1 0 : Nat) : Int)) = 2 := by
  constructor
  · rfl
  · decide

/-- C3 as amended: for `0 ≤ max_total` (within `int` range), the
optimal-per-node value equals `max 1 (max_total / available)` whenever at
least one node is available, and equals 1 when no node is available (the
clamp of the initial 0), rather than `max(1, max_total / max(1, available))`
in the latter case. -/
theorem optimal_per_node_eq (max_total : Int) (available_nodes : Nat)
    (h0 : 0 ≤ max_total) (h1 : max_total < 2147483648) :
    (0 < available_nodes →
       optimal_per_node max_total available_nodes =
         max 1 (max_total / (available_nodes : Int)))
    ∧ (available_nodes = 0 → optimal_per_node max_total available_nodes = 1) := by
  constructor
  · intro hpos
    have hmod : max_total % 4294967296 = max_total :=
      Int.emod_eq_of_lt h0 (by omega)
    have h2 : cUInt32 max_total = max_total.toNat := by
      simp [cUInt32, hmod]
    have hdle : max_total.toNat / available_nodes ≤ max_total.toNat :=
      Nat.div_le_self _ _
    have h3 : uintToCInt (max_total.toNat / available_nodes) =
        ((max_total.toNat / available_nodes : Nat) : Int) := by
      unfold uintToCInt
      rw [Nat.mod_eq_of_lt (by omega)]
      have hlt : max_total.toNat / available_nodes < 2147483648 := by omega
      simp [hlt]
    have h4 : ((max_total.toNat / available_nodes : Nat) : Int) =
        max_total / (available_nodes : Int) := by
      rw [Int.ofNat_ediv]
      congr 1
      omega
    simp only [optimal_per_node, hpos, if_pos, h2, h3, h4]
    have hnn : 0 ≤ max_total / (available_nodes : Int) :=
      Int.ediv_nonneg h0 (by positivity)
    split <;> omega
  · intro hz
    simp [optimal_per_node, hz]

/-- C3 witness: at `max_total = 5` with 2 available nodes the equation of the
amended claim evaluates to `optimal_per_node = max 1 (5 / 2) = 2`. -/
theorem optimal_per_node_eq_witness :
    optimal_per_node 5 2 = max 1 ((5 : Int) / ((2 : Nat) : Int)) :=
  (optimal_per_node_eq 5 2 (by decide) (by decide)).1 (by decide)

/-! ## Resources and actions for the ordering claims -/

/-- The resource variant tag (`enum pe_obj_types`), in its C order
`pe_native < pe_group < pe_clone < pe_container`. -/
inductive Variant where
  | native
  | group
  | clone
  | container
deriving DecidableEq

/-- The numeric value of a variant tag, used for the C comparisons
`variant < pe_clone` and `variant == pe_native`. -/
def variantRank : Variant → Nat
  | .native => 0
  | .group => 1
  | .clone => 2
  | .container => 3

/-- The fields of a resource consulted by the ordering code: its identity
(pointer equality in C is modelled as id equality, distinct resources having
distinct ids), its variant, the parsed truth value of its `interleave` meta
attribute (`none` when the attribute is absent), and whether its first child
is a primitive (consulted by `orig_action_name` via `get_complex_task`). -/
structure CRsc where
  id : Nat
  variant : Variant
  metaInterleave : Option Bool
  childIsPrimitive : Bool
deriving DecidableEq

/-- An action as seen by the ordering predicates: its uuid, its task name,
and its resource (possibly NULL). -/
structure ActRef where
  uuid : List Char
  task : List Char
  rsc : Option CRsc
deriving DecidableEq

/-- Modelled from the spec: the external helper `crm_is_true` applied to a
meta-attribute lookup; an absent attribute (NULL) is false, a present one
contributes its parsed truth value. -/
def crmIsTrue : Option Bool → Bool
  | none => false
  | some b => b

/-! ## 4.9.1 `can_interleave_actions` -/

/-- Translation of `can_interleave_actions(first, then)` (lines 980-1016):
both actions must have resources, the resources must differ, both must be at
least clone-variant, and the `interleave` meta attribute must parse true on
the governing resource — the first's resource if the "then" uuid ends with
`_stop_0` or `_demote_0`, otherwise the then's resource. -/
def can_interleave_actions (first thenAct : ActRef) : Bool :=
  match first.rsc, thenAct.rsc with
  | some firstRsc, some thenRsc =>
    if firstRsc.id = thenRsc.id then false
    else if variantRank firstRsc.variant < variantRank Variant.clone
            || variantRank thenRsc.variant < variantRank Variant.clone then false
    else
      let rsc := if pcmkEndsWith thenAct.uuid ("_stop_0".toList)
                    || pcmkEndsWith thenAct.uuid ("_demote_0".toList)
                 then firstRsc else thenRsc
      crmIsTrue rsc.metaInterleave
  | _, _ => false

/-- C9: `can_interleave_actions` returns true iff both actions have
resources, the resources differ, both are at-least-clone variant, and the
`interleave` meta attribute parses true on the governing resource (the
first's resource when the "then" uuid ends with `_stop_0` or `_demote_0`,
otherwise the then's); in particular it is false for identical resources,
for a primitive resource, or when the attribute is absent. -/
theorem can_interleave_actions_iff (first thenAct : ActRef) :
    can_interleave_actions first thenAct = true ↔
      ∃ firstRsc thenRsc, first.rsc = some firstRsc ∧ thenAct.rsc = some thenRsc ∧
        firstRsc.id ≠ thenRsc.id ∧
        variantRank Variant.clone ≤ variantRank firstRsc.variant ∧
        variantRank Variant.clone ≤ variantRank thenRsc.variant ∧
        (((("_stop_0".toList) <:+ thenAct.uuid) ∨ (("_demote_0".toList) <:+ thenAct.uuid)) →
           crmIsTrue firstRsc.metaInterleave = true) ∧
        (¬((("_stop_0".toList) <:+ thenAct.uuid) ∨ (("_demote_0".toList) <:+ thenAct.uuid)) →
           crmIsTrue thenRsc.metaInterleave = true) := by
  cases hf : first.rsc with
  | none => simp [can_interleave_actions, hf]
  | some fr =>
    cases ht : thenAct.rsc with
    | none => simp [can_interleave_actions, hf, ht]
    | some tr =>
      simp only [can_interleave_actions, hf, ht]
      by_cases hid : fr.id = tr.id
      · simp [hid]
      · by_cases hv : variantRank fr.variant < variantRank Variant.clone
            ∨ variantRank tr.variant < variantRank Variant.clone
        · have hvb : (variantRank fr.variant < variantRank Variant.clone
              || variantRank tr.variant < variantRank Variant.clone) = true := by
            simpa [Bool.or_eq_true, decide_eq_true_iff] using hv
          simp only [if_neg hid, hvb, if_true]
          constructor
          · intro h
            exact absurd h (by simp)
          · rintro ⟨a, b, ha, hb, hne, h1, h2, h3, h4⟩
            cases ha
            cases hb
            omega
        · have hvb : (variantRank fr.variant < variantRank Variant.clone
              || variantRank tr.variant < variantRank Variant.clone) = false := by
            simpa [Bool.or_eq_true, decide_eq_true_iff, not_or] using hv
          push_neg at hv
          simp only [if_neg hid, hvb, Bool.false_eq_true, if_false]
          by_cases hsfx : (("_stop_0".toList) <:+ thenAct.uuid)
              ∨ (("_demote_0".toList) <:+ thenAct.uuid)
          · have hsb : (pcmkEndsWith thenAct.uuid ("_stop_0".toList)
                || pcmkEndsWith thenAct.uuid ("_demote_0".toList)) = true := by
              simpa [Bool.or_eq_true, pcmkEndsWith_iff] using hsfx
            simp only [hsb, if_true]
            constructor
            · intro h
              exact ⟨fr, tr, rfl, rfl, hid, hv.1, hv.2, fun _ => h,
                fun hns => absurd hsfx hns⟩
            · rintro ⟨a, b, ha, hb, hne, h1, h2, h3, h4⟩
              cases ha
              cases hb
              exact h3 hsfx
          · have hsb : (pcmkEndsWith thenAct.uuid ("_stop_0".toList)
                || pcmkEndsWith thenAct.uuid ("_demote_0".toList)) = false := by
              have hsfx' := hsfx
              push_neg at hsfx'
              simp only [pcmkEndsWith, Bool.or_eq_false_iff, decide_eq_false_iff_not]
              exact hsfx'
            simp only [hsb, Bool.false_eq_true, if_false]
            constructor
            · intro h
              exact ⟨fr, tr, rfl, rfl, hid, hv.1, hv.2,
                fun hs => absurd hs hsfx, fun _ => h⟩
            · rintro ⟨a, b, ha, hb, hne, h1, h2, h3, h4⟩
              cases ha
              cases hb
              exact h4 hsfx

/-! ## 4.9.2 the `current` selector of the interleaved path -/

/-- Translation of the binding
`bool current = pcmk__ends_with(first->uuid, "_stopped_0") ||
pcmk__ends_with(first->uuid, "_demoted_0")` in
`update_interleaved_actions` (lines 917-920): the value passed as `current`
to `pcmk__find_compatible_instance` and to `unassign_if_mandatory`. -/
def interleave_current (first : ActRef) : Bool :=
  pcmkEndsWith first.uuid ("_stopped_0".toList)
    || pcmkEndsWith first.uuid ("_demoted_0".toList)

/-- An action uuid that denotes the completion of a stop or demote. -/
def completedStopOrDemote (uuid : List Char) : Prop :=
  (("_stopped_0".toList) <:+ uuid) ∨ (("_demoted_0".toList) <:+ uuid)

/-- C4 counterexample: with a "first" action `cloneA_stopped_0` and a "then"
action `cloneB_start_0`, the code computes `current = true` although the
"then" action is not a completion of a stop or demote — `current` is derived
from the first action's uuid, not the then action's. -/
theorem interleave_current_not_from_then_uuid :
    interleave_current ⟨"cloneA_stopped_0".toList, "stopped".toList, none⟩ = true
    ∧ ¬ completedStopOrDemote ("cloneB_start_0".toList) := by
  constructor
  · decide
  · unfold completedStopOrDemote
    decide

/-- C4 as amended: the boolean `current` passed to the compatibility search
and to `unassign_if_mandatory` is true exactly when the FIRST action is a
completion of a stop or demote, i.e. when the first action's uuid ends with
`_stopped_0` or `_demoted_0`. -/
theorem interleave_current_iff_first_completes_stop_or_demote (first : ActRef) :
    interleave_current first = true ↔ completedStopOrDemote first.uuid := by
  simp [interleave_current, completedStopOrDemote, pcmkEndsWith_iff,
    Bool.or_eq_true]

/-! ## 4.8 the compatibility matcher's public entry point -/

/-- The resource roles distinguished by the compatibility matcher
(`enum rsc_role_e`); only `unknown` is treated specially. -/
inductive Role where
  | unknown
  | stopped
  | started
  | unpromoted
  | promoted
deriving DecidableEq

/-- An instance as consulted by `pcmk__instance_matches`: its role and
location in the current and the next (assigned) cluster state — the external
`fns->state` and `fns->location` callbacks — and the outcome of
`is_set_recursive(instance, pe_rsc_block, true)`. -/
structure MInstance where
  stateCurrent : Role
  stateNext : Role
  blockedRecursive : Bool
  locCurrent : Option Nat
  locNext : Option Nat
deriving DecidableEq

/-- Modelled from the spec: the per-resource `state` callback, selected by
the `current` flag. -/
def inst_state (i : MInstance) (current : Bool) : Role :=
  if current then i.stateCurrent else i.stateNext

/-- Modelled from the spec: the per-resource `location` callback, selected by
the `current` flag (`none` when the instance has no node in that view). -/
def inst_location (i : MInstance) (current : Bool) : Option Nat :=
  if current then i.locCurrent else i.locNext

/-- Translation of `pcmk__instance_matches(instance, node, role, current)`
(lines 617-654): the `CRM_CHECK` guard returns false on a NULL instance or
node; then the role must match when specified; the location is consulted
only for non-blocked instances; and the location's node identity must equal
the given node. -/
def pcmk_instance_matches (instOpt : Option MInstance) (nodeOpt : Option Nat)
    (role : Role) (current : Bool) : Bool :=
  match instOpt, nodeOpt with
  | some inst, some node =>
    if role ≠ Role.unknown ∧ role ≠ inst_state inst current then false
    else
      let instanceNode := if ! inst.blockedRecursive then inst_location inst current else none
      match instanceNode with
      | none => false
      | some n => decide (n = node)
  | _, _ => false

/-- C10: `pcmk__instance_matches` returns false (rather than failing) when
the instance or the node is NULL, and a true result requires a non-NULL
instance whose location in the selected view exists and equals the given
node. -/
theorem instance_matches_null_safe (instOpt : Option MInstance)
    (nodeOpt : Option Nat) (role : Role) (current : Bool) :
    ((instOpt = none ∨ nodeOpt = none) →
       pcmk_instance_matches instOpt nodeOpt role current = false)
    ∧ (pcmk_instance_matches instOpt nodeOpt role current = true →
       ∃ inst node, instOpt = some inst ∧ nodeOpt = some node ∧
         inst_location inst current = some node) := by
  cases instOpt with
  | none => simp [pcmk_instance_matches]
  | some inst =>
    cases nodeOpt with
    | none => simp [pcmk_instance_matches]
    | some node =>
      constructor
      · rintro (h | h) <;> simp at h
      · intro h
        refine ⟨inst, node, rfl, rfl, ?_⟩
        simp only [pcmk_instance_matches] at h
        by_cases hrole : role ≠ Role.unknown ∧ role ≠ inst_state inst current
        · rw [if_pos hrole] at h
          exact absurd h (by simp)
        · rw [if_neg hrole] at h
          cases hb : inst.blockedRecursive with
          | true => simp [hb] at h
          | false =>
            cases hl : inst_location inst current with
            | none => simp [hb, hl] at h
            | some n =>
              simp [hb, hl] at h
              rw [h]

/-- C10 witness: a NULL instance with a concrete node yields false. -/
theorem instance_matches_null_safe_witness :
    pcmk_instance_matches none (some 0) Role.unknown true = false :=
  (instance_matches_null_safe none (some 0) Role.unknown true).1 (Or.inl rfl)

/-! ## 4.6 Instance-state summarizer: `check_instance_state` -/

/-- An action of a primitive instance, as read by the summarizer: its task
name and the `optional`, `runnable` and `pseudo` flags. -/
structure SAction where
  task : List Char
  optional : Bool
  runnable : Bool
  pseudo : Bool
deriving DecidableEq

/-- The `enum instance_state` bitset over
`starting | stopping | restarting | active`. -/
structure IState where
  starting : Bool
  stopping : Bool
  restarting : Bool
  active : Bool
deriving DecidableEq

/-- `pcmk_all_flags_set(state, instance_all)`: all four bits set. -/
def istate_all (st : IState) : Bool :=
  st.starting && st.stopping && st.restarting && st.active

mutual
/-- An instance as recursed over by `check_instance_state`: a primitive
(with its running state and action list) or a collective (a cloned group)
with a list of children. -/
inductive IRes : Type where
  | prim : Bool → List SAction → IRes
  | coll : IResList → IRes
/-- The GList of children of a collective instance. -/
inductive IResList : Type where
  | nil : IResList
  | cons : IRes → IResList → IResList
end

/-- Translation of the action loop of `check_instance_state` (lines 449-486):
fold the instance's actions into the local (starting, stopping) pair,
stopping early once both are set; a `start` contributes when non-optional and
runnable, a `stop` when non-optional and runnable-or-pseudo. -/
def check_start_stop_actions : List SAction → Bool → Bool → Bool × Bool
  | [], starting, stopping => (starting, stopping)
  | a :: rest, starting, stopping =>
    if starting && stopping then (starting, stopping)
    else if a.task == ("start".toList) then
      check_start_stop_actions rest
        (starting || (! a.optional && a.runnable)) stopping
    else if a.task == ("stop".toList) then
      check_start_stop_actions rest starting
        (stopping || (! a.optional && (a.pseudo || a.runnable)))
    else check_start_stop_actions rest starting stopping

mutual
/-- Translation of `check_instance_state(instance, state)` (lines 421-493):
return unchanged once all four bits are set; recurse into children for a
non-primitive; for a primitive, compute the local bitset (active from
`running_on`, starting/stopping from the action loop, restarting iff both
starting and stopping locally) and OR it into the accumulated state. -/
def check_instance_state : IRes → IState → IState
  | .coll children, st =>
    if istate_all st then st else check_children_state children st
  | .prim running acts, st =>
    if istate_all st then st
    else
      let ss := check_start_stop_actions acts false false
      { starting := st.starting || ss.1,
        stopping := st.stopping || ss.2,
        restarting := st.restarting || (ss.1 && ss.2),
        active := st.active || running }
def check_children_state : IResList → IState → IState
  | .nil, st => st
  | .cons c rest, st =>
    if istate_all st then st
    else check_children_state rest (check_instance_state c st)
end

/-- A start action that makes a primitive instance count as starting. -/
def qualifying_start (a : SAction) : Bool :=
  a.task == ("start".toList) && ! a.optional && a.runnable

/-- A stop action that makes a primitive instance count as stopping. -/
def qualifying_stop (a : SAction) : Bool :=
  a.task == ("stop".toList) && ! a.optional && (a.pseudo || a.runnable)

mutual
/-- Whether some single (primitive) instance in the tree is restarting: it
has both a qualifying start action and a qualifying stop action. -/
def some_instance_restarts : IRes → Bool
  | .prim _ acts => acts.any qualifying_start && acts.any qualifying_stop
  | .coll children => some_child_restarts children
def some_child_restarts : IResList → Bool
  | .nil => false
  | .cons c rest => some_instance_restarts c || some_child_restarts rest
end

theorem check_start_stop_actions_eq (acts : List SAction) (sg sp : Bool) :
    check_start_stop_actions acts sg sp =
      (sg || acts.any qualifying_start, sp || acts.any qualifying_stop) := by
  induction acts generalizing sg sp with
  | nil => simp [check_start_stop_actions]
  | cons a rest ih =>
    unfold check_start_stop_actions
    by_cases hss : (sg && sp) = true
    · have hsg : sg = true := by
        cases sg <;> simp_all
      have hsp : sp = true := by
        cases sp <;> simp_all
      subst hsg
      subst hsp
      simp
    · rw [if_neg hss]
      by_cases hstart : (a.task == ("start".toList)) = true
      · have htask : a.task = ("start".toList) := eq_of_beq hstart
        have h1 : ((("start".toList) : List Char) == ("start".toList)) = true := by decide
        have h2 : ((("start".toList) : List Char) == ("stop".toList)) = false := by decide
        rw [if_pos hstart, ih]
        simp only [List.any_cons, qualifying_start, qualifying_stop, htask, h1, h2]
        simp [Bool.or_assoc]
      · rw [if_neg hstart]
        by_cases hstop : (a.task == ("stop".toList)) = true
        · have htask : a.task = ("stop".toList) := eq_of_beq hstop
          have h1 : ((("stop".toList) : List Char) == ("start".toList)) = false := by decide
          have h2 : ((("stop".toList) : List Char) == ("stop".toList)) = true := by decide
          rw [if_pos hstop, ih]
          simp only [List.any_cons, qualifying_start, qualifying_stop, htask, h1, h2]
          simp [Bool.or_assoc]
        · rw [if_neg hstop, ih]
          rw [Bool.not_eq_true] at hstart hstop
          simp only [List.any_cons, qualifying_start, qualifying_stop, hstart, hstop]
          simp

theorem istate_all_restarting {st : IState} (h : istate_all st = true) :
    st.restarting = true := by
  unfold istate_all at h
  cases hr : st.restarting <;> simp_all

mutual
theorem check_instance_state_restarting_aux (inst : IRes) (st : IState) :
    (check_instance_state inst st).restarting =
      (st.restarting || some_instance_restarts inst) := by
  cases inst with
  | prim running acts =>
    unfold check_instance_state
    by_cases hall : istate_all st = true
    · rw [if_pos hall, istate_all_restarting hall]
      simp
    · rw [if_neg hall]
      simp only [check_start_stop_actions_eq, some_instance_restarts]
      simp
  | coll children =>
    unfold check_instance_state
    by_cases hall : istate_all st = true
    · rw [if_pos hall, istate_all_restarting hall]
      simp
    · rw [if_neg hall]
      simpa [some_instance_restarts] using
        check_children_state_restarting_aux children st
theorem check_children_state_restarting_aux (children : IResList) (st : IState) :
    (check_children_state children st).restarting =
      (st.restarting || some_child_restarts children) := by
  cases children with
  | nil =>
    unfold check_children_state
    simp [some_child_restarts]
  | cons c rest =>
    unfold check_children_state
    by_cases hall : istate_all st = true
    · rw [if_pos hall, istate_all_restarting hall]
      simp
    · rw [if_neg hall]
      rw [check_children_state_restarting_aux rest (check_instance_state c st)]
      rw [check_instance_state_restarting_aux c st]
      simp [some_child_restarts, Bool.or_assoc]
end

/-- C6: the accumulated `restarting` bit after `check_instance_state` is set
iff it was already set or some single primitive instance in the tree has
both a non-optional runnable start action and a non-optional
runnable-or-pseudo stop action; one instance starting and a different
instance stopping never sets it. -/
theorem check_instance_state_restarting_iff_single_instance_restarts
    (inst : IRes) (st : IState) :
    (check_instance_state inst st).restarting =
      (st.restarting || some_instance_restarts inst) :=
  check_instance_state_restarting_aux inst st

/-! ## 4.11 Collective action-flag folder: `pcmk__collective_action_flags` -/

/-- An action flag word restricted to the three bits the folder manipulates. -/
structure AFlags where
  optional : Bool
  runnable : Bool
  pseudo : Bool
deriving DecidableEq

/-- An action on an instance's action list, as consulted by the folder: task
name, the node it is on (when any), and its flags.  The per-resource
`action_flags` callback is modelled as returning the action's own flag set,
which is what the spec's step "Fetch that action's flags" describes. -/
structure IAction where
  task : List Char
  node : Option Nat
  flags : AFlags
deriving DecidableEq

/-- A clone instance or bundle container as consulted by the folder: its
variant (only "is it primitive" is tested) and its action list. -/
structure CInstance where
  variant : Variant
  actions : List IAction
deriving DecidableEq

/-- Modelled from the spec: the external helper
`find_first_action(actions, NULL, task, node)` — the first action with the
given task name; when a node is given the action's node must exist and have
the same identity. -/
def find_first_action (actions : List IAction) (task : List Char)
    (node : Option Nat) : Option IAction :=
  actions.find? (fun a =>
    a.task == task &&
      match node with
      | none => true
      | some n => a.node == some n)

/-- Modelled from the spec: the substring search `strstr` followed by the
skip past the pattern — the text after the first occurrence of `pat`. -/
def substrAfter (pat : List Char) : List Char → Option (List Char)
  | [] => if pat.isEmpty then some [] else none
  | c :: t =>
    if pat.isPrefixOf (c :: t) then some ((c :: t).drop pat.length)
    else substrAfter pat t

/-- Modelled from the spec: strip the final `_<interval>` segment of an
operation key — drop the last underscore and everything after it. -/
def dropFromLastUnderscore (s : List Char) : Option (List Char) :=
  match s.reverse.dropWhile (fun c => c != '_') with
  | [] => none
  | _ :: rest => some rest.reverse

/-- Modelled from the spec: extract `<inner>` from a notify uuid of the form
`RSC_(confirmed-)(pre|post)_notify_<inner>_<interval>`. -/
def notifyInnerName (uuid : List Char) : Option (List Char) :=
  (substrAfter ("_notify_".toList) uuid).bind dropFromLastUnderscore

/-- Modelled from the spec: `get_complex_task(instance, name)` — when the
instance is a primitive, completion action names map to the action that was
completed (`stopped` to `stop`, `started` to `start`, `demoted` to `demote`,
`promoted` to `promote`); otherwise the name is unchanged. -/
def getComplexTaskName (childIsPrimitive : Bool) (name : List Char) : List Char :=
  if childIsPrimitive then
    if name == ("stopped".toList) then ("stop".toList)
    else if name == ("started".toList) then ("start".toList)
    else if name == ("demoted".toList) then ("demote".toList)
    else if name == ("promoted".toList) then ("promote".toList)
    else name
  else name

/-- A collective (clone or bundle) action handed to the folder: its uuid and
task, its resource, and its flag word (the folder may clear the `optional`
and `runnable` bits on the action object itself). -/
structure CAction where
  uuid : List Char
  task : List Char
  rsc : CRsc
  flags : AFlags
deriving DecidableEq

/-- Translation of `orig_action_name(action)` (lines 866-886): for a notify
or notified action, extract the notified action's name from the uuid
(falling back to `no_action` when the parse fails); then map the name
through `get_complex_task` using the first child instance of the action's
resource. -/
def orig_action_name (action : CAction) : List Char :=
  if action.task == ("notify".toList) || action.task == ("notified".toList) then
    match notifyInnerName action.uuid with
    | none => ("no_action".toList)
    | some inner => getComplexTaskName action.rsc.childIsPrimitive inner
  else getComplexTaskName action.rsc.childIsPrimitive action.task

/-- One iteration of the instance loop of `pcmk__collective_action_flags`
(lines 1162-1200), on the state (folded flag word, any_runnable, the
collective action object): node is passed down only for primitive instances;
an instance with no matching action is skipped; a present mandatory instance
action clears `optional` both in the folded word and on the action object
(only while the folded word still has it); a present runnable instance
action sets `any_runnable`. -/
def caf_step (name : List Char) (node : Option Nat)
    (st : AFlags × Bool × CAction) (inst : CInstance) : AFlags × Bool × CAction :=
  let instNode := if inst.variant = Variant.native then node else none
  match find_first_action inst.actions name instNode with
  | none => st
  | some ia =>
    let st1 :=
      if st.1.optional && ! ia.flags.optional then
        ({ st.1 with optional := false }, st.2.1,
         { st.2.2 with flags := { st.2.2.flags with optional := false } })
      else st
    (st1.1, st1.2.1 || ia.flags.runnable, st1.2.2)

/-- Translation of `pcmk__collective_action_flags(action, instances, node)`
(lines 1151-1213): start from `optional|runnable|pseudo`, fold the instance
loop, then clear `runnable` in the returned word when no instance action was
runnable — and on the action object itself only when `node` is NULL.
Returns the folded flag word together with the (possibly updated) action
object. -/
def pcmk_collective_action_flags (action : CAction) (instances : List CInstance)
    (node : Option Nat) : AFlags × CAction :=
  let name := orig_action_name action
  let st := instances.foldl (caf_step name node) (⟨true, true, true⟩, false, action)
  if ! st.2.1 then
    ({ st.1 with runnable := false },
     if node = none then
       { st.2.2 with flags := { st.2.2.flags with runnable := false } }
     else st.2.2)
  else (st.1, st.2.2)

/-- The flag words of the instance actions that are present — found by
`find_first_action` for the original action name, with the node passed down
only to primitive instances. -/
def presentInstanceFlags (instances : List CInstance) (name : List Char)
    (node : Option Nat) : List AFlags :=
  instances.filterMap (fun inst =>
    (find_first_action inst.actions name
      (if inst.variant = Variant.native then node else none)).map (fun a => a.flags))

theorem caf_foldl_spec (name : List Char) (node : Option Nat)
    (l : List CInstance) (fl : AFlags) (ar : Bool) (act : CAction) :
    (l.foldl (caf_step name node) (fl, ar, act)).1.optional =
      (fl.optional && (presentInstanceFlags l name node).all (fun x => x.optional))
    ∧ (l.foldl (caf_step name node) (fl, ar, act)).1.runnable = fl.runnable
    ∧ (l.foldl (caf_step name node) (fl, ar, act)).1.pseudo = fl.pseudo
    ∧ (l.foldl (caf_step name node) (fl, ar, act)).2.1 =
      (ar || (presentInstanceFlags l name node).any (fun x => x.runnable))
    ∧ (l.foldl (caf_step name node) (fl, ar, act)).2.2.flags.optional =
      (act.flags.optional &&
        (! fl.optional || (presentInstanceFlags l name node).all (fun x => x.optional)))
    ∧ (l.foldl (caf_step name node) (fl, ar, act)).2.2.flags.runnable = act.flags.runnable
    ∧ (l.foldl (caf_step name node) (fl, ar, act)).2.2.flags.pseudo = act.flags.pseudo := by
  induction l generalizing fl ar act with
  | nil => simp [presentInstanceFlags]
  | cons inst rest ih =>
    simp only [List.foldl_cons]
    cases hfa : find_first_action inst.actions name
        (if inst.variant = Variant.native then node else none) with
    | none =>
      have hstep : caf_step name node (fl, ar, act) inst = (fl, ar, act) := by
        simp [caf_step, hfa]
      rw [hstep]
      have hps : presentInstanceFlags (inst :: rest) name node =
          presentInstanceFlags rest name node := by
        simp [presentInstanceFlags, List.filterMap_cons, hfa]
      rw [hps]
      exact ih fl ar act
    | some ia =>
      have hps : presentInstanceFlags (inst :: rest) name node =
          ia.flags :: presentInstanceFlags rest name node := by
        simp [presentInstanceFlags, List.filterMap_cons, hfa]
      rw [hps]
      by_cases hcl : (fl.optional && ! ia.flags.optional) = true
      · have hstep : caf_step name node (fl, ar, act) inst =
            ({ fl with optional := false }, ar || ia.flags.runnable,
             { act with flags := { act.flags with optional := false } }) := by
          simp [caf_step, hfa, hcl]
        rw [hstep]
        obtain ⟨i1, i2, i3, i4, i5, i6, i7⟩ :=
          ih { fl with optional := false } (ar || ia.flags.runnable)
            { act with flags := { act.flags with optional := false } }
        refine ⟨?_, ?_, ?_, ?_, ?_, ?_, ?_⟩
        · rw [i1]
          have hflo : fl.optional = true := by
            cases hx : fl.optional <;> simp_all
          have hiao : ia.flags.optional = false := by
            cases hx : ia.flags.optional <;> simp_all
          simp [hflo, hiao]
        · exact i2
        · exact i3
        · rw [i4]
          simp [Bool.or_assoc]
        · rw [i5]
          have hflo : fl.optional = true := by
            cases hx : fl.optional <;> simp_all
          have hiao : ia.flags.optional = false := by
            cases hx : ia.flags.optional <;> simp_all
          simp [hflo, hiao]
        · exact i6
        · exact i7
      · have hstep : caf_step name node (fl, ar, act) inst =
            (fl, ar || ia.flags.runnable, act) := by
          simp [caf_step, hfa, hcl]
        rw [hstep]
        obtain ⟨i1, i2, i3, i4, i5, i6, i7⟩ := ih fl (ar || ia.flags.runnable) act
        refine ⟨?_, ?_, ?_, ?_, ?_, ?_, ?_⟩
        · rw [i1]
          rcases Bool.and_eq_false_iff.mp (Bool.not_eq_true _ ▸ hcl) with hx | hx
          · simp [hx]
          · have : ia.flags.optional = true := by
              cases hy : ia.flags.optional <;> simp_all
            simp [this]
        · exact i2
        · exact i3
        · rw [i4]
          simp [Bool.or_assoc]
        · rw [i5]
          rcases Bool.and_eq_false_iff.mp (Bool.not_eq_true _ ▸ hcl) with hx | hx
          · simp [hx]
          · have : ia.flags.optional = true := by
              cases hy : ia.flags.optional <;> simp_all
            simp [this]
        · exact i6
        · exact i7

/-- C5: the flag word returned by `pcmk__collective_action_flags` has
`optional` equal to the AND, over the instances that have a matching action,
of the instance actions' `optional` flags; `runnable` equal to the OR of
their `runnable` flags; instances with no matching action are skipped; the
`runnable` bit on the action object itself is cleared only when `node` is
NULL (and no instance action is runnable), while the `optional` bit on the
action object is cleared exactly when the fold clears it. -/
theorem collective_action_flags_fold (action : CAction)
    (instances : List CInstance) (node : Option Nat) :
    (pcmk_collective_action_flags action instances node).1.optional =
      (presentInstanceFlags instances (orig_action_name action) node).all
        (fun x => x.optional)
    ∧ (pcmk_collective_action_flags action instances node).1.runnable =
      (presentInstanceFlags instances (orig_action_name action) node).any
        (fun x => x.runnable)
    ∧ (pcmk_collective_action_flags action instances node).1.pseudo = true
    ∧ (pcmk_collective_action_flags action instances node).2.flags.optional =
      (action.flags.optional &&
        (presentInstanceFlags instances (orig_action_name action) node).all
          (fun x => x.optional))
    ∧ (pcmk_collective_action_flags action instances node).2.flags.runnable =
      (if node = none ∧ (presentInstanceFlags instances (orig_action_name action) node).any
            (fun x => x.runnable) = false
       then false else action.flags.runnable)
    ∧ (pcmk_collective_action_flags action instances node).2.flags.pseudo =
      action.flags.pseudo := by
  obtain ⟨i1, i2, i3, i4, i5, i6, i7⟩ :=
    caf_foldl_spec (orig_action_name action) node instances
      ⟨true, true, true⟩ false action
  simp only [pcmk_collective_action_flags]
  by_cases har : (instances.foldl (caf_step (orig_action_name action) node)
      (⟨true, true, true⟩, false, action)).2.1 = true
  · have hany : (presentInstanceFlags instances (orig_action_name action) node).any
        (fun x => x.runnable) = true := by
      rw [har] at i4
      simpa using i4.symm
    rw [har]
    simp only [Bool.not_true, Bool.false_eq_true, if_false]
    refine ⟨by simpa using i1, by rw [i2, hany], by simpa using i3,
      by simpa using i5, ?_, i7⟩
    rw [i6, hany]
    simp
  · have har' : (instances.foldl (caf_step (orig_action_name action) node)
        (⟨true, true, true⟩, false, action)).2.1 = false := by
      cases hx : (instances.foldl (caf_step (orig_action_name action) node)
        (⟨true, true, true⟩, false, action)).2.1 <;> simp_all
    have hany : (presentInstanceFlags instances (orig_action_name action) node).any
        (fun x => x.runnable) = false := by
      rw [har'] at i4
      simpa using i4.symm
    rw [har']
    simp only [Bool.not_false, if_true]
    cases node with
    | none =>
      refine ⟨by simpa using i1, ?_, by simpa using i3, ?_, ?_, ?_⟩
      · simp [hany]
      · simpa using i5
      · rw [hany]
        simp
      · simpa using i7
    | some n =>
      refine ⟨by simpa using i1, ?_, by simpa using i3, ?_, ?_, ?_⟩
      · simp [hany]
      · simpa using i5
      · simp [i6, hany]
      · simpa using i7

/-! ## 4.2-4.5 Instance assigner and two-pass collective assigner -/

/-- Modelled from the spec: the external helper `resource_location(rsc,
node, score, tag, data_set)` records a resource-level location constraint on
the instance (spec 4.5: "ban this instance with a −∞ resource-level
location"); the constraint's later effect on scores belongs to the external
location machinery. -/
def resource_location (inst : Instance) (node : Option Nat) (score : Int)
    (tag : String) : Instance :=
  { inst with locations := inst.locations ++ [⟨tag, score, node⟩] }

/-- The delegated per-resource `assign` callback
(`instance->cmds->assign(instance, prefer)`): given the instance's identity,
its (already filtered) `allowed_nodes` table and an optional preferred node,
it returns the chosen node (or none) and the possibly mutated table. -/
def AssignFn : Type :=
  Nat → List (Nat × Int) → Option Nat → Option Nat × List (Nat × Int)

/-- Modelled from the spec: the contract of the external `assign` callback —
"chosen nodes are always in the instance's allowed_nodes" and "∀ assigned
instance I: node.weight ≥ 0 on its chosen node" (spec 3, Invariants): a
chosen node is a key of the table the callback was given, with nonnegative
score there. -/
def assignRespectsScores (f : AssignFn) : Prop :=
  ∀ i tbl pref c tbl2, f i tbl pref = (some c, tbl2) →
    ∃ w, alookup c tbl = some w ∧ 0 ≤ w

/-- Translation of `ban_unavailable_allowed_nodes(instance, max_per_node)`
(lines 84-100): set the instance's score (via `common_update_score`, whose
score merge with -INFINITY yields -INFINITY) on every allowed node that
fails the eligibility filter. -/
def ban_unavailable_allowed_nodes (env : Nat → NodeInfo) (ptab : PTab)
    (inst : Instance) (max_per_node : Int) : Instance :=
  { inst with allowed := inst.allowed.map (fun e =>
      (e.1, if can_run_instance env ptab inst e.1 max_per_node then e.2
            else scoreNegInfinity)) }

/-- The result of `assign_instance`: the updated parent table, the updated
instance, and whether a node was chosen. -/
structure AssignResult where
  ptab : PTab
  inst : Instance
  ok : Bool

/-- The count increment `allowed->count++` on the parent's view of the
chosen node. -/
def bumpCount (ptab : PTab) (c : Nat) : PTab :=
  ptab.map (fun e =>
    (e.1, if e.1 = c then (⟨e.2.weight, e.2.count + 1⟩ : ParentEntry) else e.2))

/-- The tail of `assign_instance` (lines 184-197): on success, look up the
parent's view of the chosen node and increment its count; when the view is
missing, the count cannot be tracked (`CRM_LOG_ASSERT(!managed)`) and the
table is unchanged. -/
def finalize_assign (ptab : PTab) (inst : Instance) (c : Nat) : AssignResult :=
  match alookup c ptab with
  | none => ⟨ptab, inst, true⟩
  | some _ => ⟨bumpCount ptab c, inst, true⟩

/-- Translation of `assign_instance(instance, prefer, all_coloc,
max_per_node)` (lines 120-199): a non-provisional instance reports whether
it has a location; an `allocating` instance signals a colocation loop; with
a preferred node, the preferred node must be allowed with nonnegative score
before anything else; then ineligible nodes are banned and the delegated
`assign` callback picks a node — with a preferred node the allowed-node
table is snapshotted first and, if the callback chooses a different node,
restored, the instance unassigned (provisional again, no node) and failure
returned.  On success the parent view's count of the chosen node is
incremented.  (`all_coloc` only selects what the caller propagated into the
colocation lists beforehand; it does not occur in the body.) -/
def assign_instance (f : AssignFn) (env : Nat → NodeInfo) (ptab : PTab)
    (inst : Instance) (prefer : Option Nat) (max_per_node : Int) : AssignResult :=
  if inst.provisional = false then ⟨ptab, inst, inst.assigned.isSome⟩
  else if inst.allocating then ⟨ptab, inst, false⟩
  else
    match prefer with
    | none =>
      let inst1 := ban_unavailable_allowed_nodes env ptab inst max_per_node
      match f inst.id inst1.allowed none with
      | (none, tbl2) =>
        ⟨ptab, { inst1 with allowed := tbl2, provisional := false, assigned := none }, false⟩
      | (some c, tbl2) =>
        finalize_assign ptab
          { inst1 with allowed := tbl2, provisional := false, assigned := some c } c
    | some p =>
      match alookup p inst.allowed with
      | none => ⟨ptab, inst, false⟩
      | some w =>
        if w < 0 then ⟨ptab, inst, false⟩
        else
          let inst1 := ban_unavailable_allowed_nodes env ptab inst max_per_node
          match f inst.id inst1.allowed (some p) with
          | (none, tbl2) =>
            ⟨ptab, { inst1 with allowed := tbl2, provisional := false, assigned := none },
             false⟩
          | (some c, tbl2) =>
            if c = p then
              finalize_assign ptab
                { inst1 with allowed := tbl2, provisional := false, assigned := some c } c
            else
              ⟨ptab, { inst1 with provisional := true, assigned := none }, false⟩

/-- Translation of `preferred_node(rsc, instance, optimal_per_node)` (lines
264-297): the instance's current node, provided the instance is active,
still provisional and not failed, the node passes `available(true, false)`,
and the parent's view of the node either does not exist or holds fewer than
the optimal number of instances. -/
def preferred_node (env : Nat → NodeInfo) (ptab : PTab) (inst : Instance)
    (optimal : Int) : Option Nat :=
  if inst.running_on = none ∨ inst.provisional = false ∨ inst.failed = true then none
  else
    match inst.running_on with
    | none => none
    | some node =>
      if !(env node).availTF then none
      else
        match alookup node ptab with
        | some parentNode =>
          if optimal ≤ (parentNode.count : Int) then none else some node
        | none => some node

/-- Translation of `reset_allowed_node_counts(rsc)` (lines 237-252): zero
every node count and return the number of allowed nodes that pass
`available(false, false)`. -/
def reset_allowed_node_counts (env : Nat → NodeInfo) (ptab : PTab) : PTab × Nat :=
  (ptab.map (fun e => (e.1, (⟨e.2.weight, 0⟩ : ParentEntry))),
   (ptab.filter (fun e => (env e.1).availFF)).length)

/-- The collective (clone or bundle) being assigned: its `allowed_nodes`
table and its two colocation-constraint lists (`rsc_cons`,
`rsc_cons_lhs`). -/
structure Collective where
  allowed : PTab
  rsc_cons : List Colocation
  rsc_cons_lhs : List Colocation

/-- Translation of `append_parent_colocation(rsc, child, all)` (lines
201-227): dependent-side constraints are appended to the child's "this
with" list when `all`, negative, or +INFINITY; primary-side constraints are
appended to the "with this" list when they influence the child and are
`all` or negative. -/
def append_parent_colocation (parent : Collective) (child : Instance)
    (all : Bool) : Instance :=
  { child with
    thisWith := child.thisWith ++ parent.rsc_cons.filter (fun cons =>
      all || decide (cons.score < 0) || decide (cons.score = scoreInfinity)),
    withThis := child.withThis ++ parent.rsc_cons_lhs.filter (fun cons =>
      cons.influence child.id && (all || decide (cons.score < 0))) }

/-- Pass 1 of `pcmk__assign_instances` (lines 340-354): while fewer than
`max_total` instances are assigned, propagate the parent colocations onto
each instance and attempt an early assignment to its preferred (current)
node; stop visiting as soon as the cap is reached. -/
def assign_pass1 (f : AssignFn) (env : Nat → NodeInfo) (coll : Collective)
    (max_total max_per_node optimal : Int) (all_coloc : Bool) :
    List Instance → PTab → Int → List Instance × PTab × Int
  | [], ptab, assigned => ([], ptab, assigned)
  | inst :: rest, ptab, assigned =>
    if max_total ≤ assigned then (inst :: rest, ptab, assigned)
    else
      let inst0 := append_parent_colocation coll inst all_coloc
      match preferred_node env ptab inst0 optimal with
      | none =>
        let r := assign_pass1 f env coll max_total max_per_node optimal all_coloc
          rest ptab assigned
        (inst0 :: r.1, r.2.1, r.2.2)
      | some current =>
        let a := assign_instance f env ptab inst0 (some current) max_per_node
        let assigned1 := if a.ok then assigned + 1 else assigned
        let r := assign_pass1 f env coll max_total max_per_node optimal all_coloc
          rest a.ptab assigned1
        (a.inst :: r.1, r.2.1, r.2.2)

/-- One Pass-2 visit of `pcmk__assign_instances` (lines 359-390): skip an
already-assigned instance; when the total cap is already reached, ban the
instance with a -INFINITY resource-level location tagged
`collective_limit_reached` and do not attempt assignment; otherwise attempt
a final assignment (the notice about running on a no-longer-allowed node
does not change the state). -/
def assign_pass2_visit (f : AssignFn) (env : Nat → NodeInfo)
    (max_total max_per_node : Int) (ptab : PTab) (assigned : Int)
    (inst : Instance) : PTab × Int × Instance :=
  if inst.provisional = false then (ptab, assigned, inst)
  else if max_total ≤ assigned then
    (ptab, assigned,
     resource_location inst none scoreNegInfinity "collective_limit_reached")
  else
    let a := assign_instance f env ptab inst none max_per_node
    (a.ptab, if a.ok then assigned + 1 else assigned, a.inst)

/-- Pass 2 of `pcmk__assign_instances`: visit every instance in order. -/
def assign_pass2 (f : AssignFn) (env : Nat → NodeInfo)
    (max_total max_per_node : Int) :
    List Instance → PTab → Int → List Instance × PTab × Int
  | [], ptab, assigned => ([], ptab, assigned)
  | inst :: rest, ptab, assigned =>
    let v := assign_pass2_visit f env max_total max_per_node ptab assigned inst
    let r := assign_pass2 f env max_total max_per_node rest v.1 v.2.1
    (v.2.2 :: r.1, r.2.1, r.2.2)

/-- The outcome of `pcmk__assign_instances`: the final instances, the parent
node table, the assigned counter, and the setup values. -/
structure AssignOutcome where
  instances : List Instance
  ptab : PTab
  assigned : Int
  availableNodes : Nat
  allColoc : Bool
  optimalPerNode : Int

/-- Translation of `pcmk__assign_instances(collective, instances, max_total,
max_per_node)` (lines 308-395): reset the counts, compute `all_coloc` and
the optimal per-node number, then run the two passes.  `max_total <
available_nodes` compares an `int` with an `unsigned int`: a negative
`max_total` converts to a huge unsigned value, so the comparison holds
exactly when `0 ≤ max_total < available_nodes`. -/
def pcmk_assign_instances (f : AssignFn) (env : Nat → NodeInfo)
    (coll : Collective) (instances : List Instance)
    (max_total max_per_node : Int) : AssignOutcome :=
  let r0 := reset_allowed_node_counts env coll.allowed
  let all_coloc := decide (0 ≤ max_total) && decide (max_total < (r0.2 : Int))
  let optimal := optimal_per_node max_total r0.2
  let p1 := assign_pass1 f env coll max_total max_per_node optimal all_coloc
    instances r0.1 0
  let p2 := assign_pass2 f env max_total max_per_node p1.1 p1.2.1 p1.2.2
  ⟨p2.1, p2.2.1, p2.2.2, r0.2, all_coloc, optimal⟩

/-- The number of instances in a list assigned to a given node. -/
def assignedTo : List Instance → Nat → Nat
  | [], _ => 0
  | inst :: rest, nid =>
    (if inst.assigned = some nid then 1 else 0) + assignedTo rest nid

/-- The number of instances in a list that have an assigned node. -/
def someCount : List Instance → Nat
  | [] => 0
  | inst :: rest => (if inst.assigned.isSome then 1 else 0) + someCount rest

theorem alookup_map_value {β γ : Type} (g : Nat → β → γ) (k : Nat) :
    ∀ l : List (Nat × β),
      alookup k (l.map (fun e => (e.1, g e.1 e.2))) = (alookup k l).map (g k)
  | [] => rfl
  | e :: rest => by
    by_cases h : e.1 = k
    · simp [alookup, h]
    · simp [alookup, h, alookup_map_value g k rest]

theorem alookup_ban (env : Nat → NodeInfo) (ptab : PTab) (inst : Instance)
    (max_per_node : Int) (c : Nat) :
    alookup c (ban_unavailable_allowed_nodes env ptab inst max_per_node).allowed =
      (alookup c inst.allowed).map (fun w =>
        if can_run_instance env ptab inst c max_per_node then w else scoreNegInfinity) :=
  alookup_map_value
    (fun k w => if can_run_instance env ptab inst k max_per_node then w
                else scoreNegInfinity) c inst.allowed

theorem alookup_bumpCount_self (ptab : PTab) (c : Nat) :
    alookup c (bumpCount ptab c) =
      (alookup c ptab).map (fun e => (⟨e.weight, e.count + 1⟩ : ParentEntry)) := by
  have h := alookup_map_value
    (fun k v => if k = c then (⟨v.weight, v.count + 1⟩ : ParentEntry) else v) c ptab
  unfold bumpCount
  rw [h]
  cases alookup c ptab <;> simp

theorem alookup_bumpCount_other (ptab : PTab) (c n : Nat) (h : n ≠ c) :
    alookup n (bumpCount ptab c) = alookup n ptab := by
  have hm := alookup_map_value
    (fun k v => if k = c then (⟨v.weight, v.count + 1⟩ : ParentEntry) else v) n ptab
  unfold bumpCount
  rw [hm]
  cases alookup n ptab <;> simp [h]

theorem alookup_reset (env : Nat → NodeInfo) (ptab : PTab) (n : Nat) :
    alookup n (reset_allowed_node_counts env ptab).1 =
      (alookup n ptab).map (fun e => (⟨e.weight, 0⟩ : ParentEntry)) :=
  alookup_map_value (fun (_ : Nat) (v : ParentEntry) => (⟨v.weight, 0⟩ : ParentEntry)) n ptab

theorem can_run_instance_true_elim (env : Nat → NodeInfo) (ptab : PTab)
    (inst : Instance) (node : Nat) (max_per_node : Int)
    (h : can_run_instance env ptab inst node max_per_node = true) :
    ∃ e, alookup node ptab = some e ∧ 0 ≤ e.weight ∧
      (e.count : Int) < max_per_node := by
  obtain ⟨-, -, e, he, hw, hc⟩ :=
    (can_run_instance_eligible_aux env ptab inst node max_per_node).mp h
  exact ⟨e, he, hw, hc⟩

theorem chosen_node_in_parent_table (f : AssignFn) (env : Nat → NodeInfo)
    (ptab : PTab) (inst : Instance) (pref : Option Nat) (max_per_node : Int)
    (hf : assignRespectsScores f) (c : Nat) (tbl2 : List (Nat × Int))
    (hfc : f inst.id (ban_unavailable_allowed_nodes env ptab inst max_per_node).allowed
        pref = (some c, tbl2)) :
    ∃ e, alookup c ptab = some e ∧ 0 ≤ e.weight ∧
      (e.count : Int) < max_per_node := by
  obtain ⟨w, hw, hw0⟩ := hf _ _ _ _ _ hfc
  rw [alookup_ban] at hw
  cases hl : alookup c inst.allowed with
  | none =>
    rw [hl] at hw
    simp at hw
  | some w0 =>
    rw [hl] at hw
    by_cases hcr : can_run_instance env ptab inst c max_per_node = true
    · exact can_run_instance_true_elim env ptab inst c max_per_node hcr
    · rw [Option.map_some', if_neg hcr] at hw
      have hwval : w = scoreNegInfinity := (Option.some.inj hw).symm
      rw [hwval] at hw0
      exact absurd hw0 (by decide)

theorem finalize_assign_of_lookup {ptab : PTab} {c : Nat} {e : ParentEntry}
    (inst : Instance) (he : alookup c ptab = some e) :
    finalize_assign ptab inst c = ⟨bumpCount ptab c, inst, true⟩ := by
  unfold finalize_assign
  rw [he]

theorem finalize_assign_parts {ptab : PTab} {c : Nat} {e : ParentEntry}
    (inst : Instance) (he : alookup c ptab = some e) :
    (finalize_assign ptab inst c).ok = true
    ∧ (finalize_assign ptab inst c).ptab = bumpCount ptab c
    ∧ (finalize_assign ptab inst c).inst = inst := by
  rw [finalize_assign_of_lookup inst he]
  exact ⟨rfl, rfl, rfl⟩

theorem assign_instance_spec (f : AssignFn) (env : Nat → NodeInfo) (ptab : PTab)
    (inst : Instance) (prefer : Option Nat) (max_per_node : Int)
    (hf : assignRespectsScores f)
    (hprov : inst.provisional = true) (hass : inst.assigned = none) :
    ((assign_instance f env ptab inst prefer max_per_node).ok = false
      ∧ (assign_instance f env ptab inst prefer max_per_node).ptab = ptab
      ∧ (assign_instance f env ptab inst prefer max_per_node).inst.assigned = none)
    ∨ (∃ c e, alookup c ptab = some e ∧ (e.count : Int) < max_per_node
        ∧ (assign_instance f env ptab inst prefer max_per_node).ok = true
        ∧ (assign_instance f env ptab inst prefer max_per_node).ptab = bumpCount ptab c
        ∧ (assign_instance f env ptab inst prefer max_per_node).inst.assigned = some c
        ∧ (assign_instance f env ptab inst prefer max_per_node).inst.provisional = false) := by
  by_cases halloc : inst.allocating = true
  · left
    simp only [assign_instance]
    rw [if_neg (by simp [hprov]), if_pos halloc]
    exact ⟨rfl, rfl, hass⟩
  · cases prefer with
    | none =>
      obtain ⟨chosen, tbl2, hfc⟩ : ∃ ch tb,
          f inst.id (ban_unavailable_allowed_nodes env ptab inst max_per_node).allowed
            none = (ch, tb) := ⟨_, _, rfl⟩
      cases chosen with
      | none =>
        left
        simp only [assign_instance]
        rw [if_neg (by simp [hprov]), if_neg halloc, hfc]
        exact ⟨rfl, rfl, rfl⟩
      | some c =>
        right
        obtain ⟨e, he, hew, hec⟩ :=
          chosen_node_in_parent_table f env ptab inst none max_per_node hf c tbl2 hfc
        refine ⟨c, e, he, hec, ?_, ?_, ?_, ?_⟩
        · simp only [assign_instance]
          rw [if_neg (by simp [hprov]), if_neg halloc, hfc]
          exact (finalize_assign_parts _ he).1
        · simp only [assign_instance]
          rw [if_neg (by simp [hprov]), if_neg halloc, hfc]
          exact (finalize_assign_parts _ he).2.1
        · simp only [assign_instance]
          rw [if_neg (by simp [hprov]), if_neg halloc, hfc]
          exact congrArg Instance.assigned (finalize_assign_parts _ he).2.2
        · simp only [assign_instance]
          rw [if_neg (by simp [hprov]), if_neg halloc, hfc]
          exact congrArg Instance.provisional (finalize_assign_parts _ he).2.2
    | some p =>
      cases hlp : alookup p inst.allowed with
      | none =>
        left
        simp only [assign_instance]
        rw [if_neg (by simp [hprov]), if_neg halloc, hlp]
        exact ⟨rfl, rfl, hass⟩
      | some w =>
        by_cases hw : w < 0
        · left
          simp only [assign_instance]
          rw [if_neg (by simp [hprov]), if_neg halloc, hlp]
          simp only []
          rw [if_pos hw]
          exact ⟨rfl, rfl, hass⟩
        · obtain ⟨chosen, tbl2, hfc⟩ : ∃ ch tb,
              f inst.id (ban_unavailable_allowed_nodes env ptab inst max_per_node).allowed
                (some p) = (ch, tb) := ⟨_, _, rfl⟩
          cases chosen with
          | none =>
            left
            simp only [assign_instance]
            rw [if_neg (by simp [hprov]), if_neg halloc, hlp]
            simp only []
            rw [if_neg hw, hfc]
            exact ⟨rfl, rfl, rfl⟩
          | some c =>
            by_cases hcp : c = p
            · right
              obtain ⟨e, he, hew, hec⟩ :=
                chosen_node_in_parent_table f env ptab inst (some p) max_per_node hf
                  c tbl2 hfc
              refine ⟨c, e, he, hec, ?_, ?_, ?_, ?_⟩
              · simp only [assign_instance]
                rw [if_neg (by simp [hprov]), if_neg halloc, hlp]
                simp only []
                rw [if_neg hw, hfc]
                simp only []
                rw [if_pos hcp]
                exact (finalize_assign_parts _ he).1
              · simp only [assign_instance]
                rw [if_neg (by simp [hprov]), if_neg halloc, hlp]
                simp only []
                rw [if_neg hw, hfc]
                simp only []
                rw [if_pos hcp]
                exact (finalize_assign_parts _ he).2.1
              · simp only [assign_instance]
                rw [if_neg (by simp [hprov]), if_neg halloc, hlp]
                simp only []
                rw [if_neg hw, hfc]
                simp only []
                rw [if_pos hcp]
                exact congrArg Instance.assigned (finalize_assign_parts _ he).2.2
              · simp only [assign_instance]
                rw [if_neg (by simp [hprov]), if_neg halloc, hlp]
                simp only []
                rw [if_neg hw, hfc]
                simp only []
                rw [if_pos hcp]
                exact congrArg Instance.provisional (finalize_assign_parts _ he).2.2
            · left
              simp only [assign_instance]
              rw [if_neg (by simp [hprov]), if_neg halloc, hlp]
              simp only []
              rw [if_neg hw, hfc]
              simp only []
              rw [if_neg hcp]
              exact ⟨rfl, rfl, rfl⟩

/-- The per-node capacity invariant threaded through both passes: every
parent-table entry's count is within the cap and equals the number `N nid`
of instances assigned to the node so far, and nodes absent from the table
have no assigned instances. -/
def CapInv (max_per_node : Int) (ptab : PTab) (N : Nat → Nat) : Prop :=
  ∀ nid, (∀ e, alookup nid ptab = some e →
            ((e.count : Int) ≤ max_per_node ∧ e.count = N nid))
       ∧ (alookup nid ptab = none → N nid = 0)

theorem CapInv_congr {mpn : Int} {ptab : PTab} {N1 N2 : Nat → Nat}
    (h : ∀ nid, N1 nid = N2 nid) (hInv : CapInv mpn ptab N1) :
    CapInv mpn ptab N2 := by
  intro nid
  constructor
  · intro e he
    obtain ⟨h1, h2⟩ := (hInv nid).1 e he
    exact ⟨h1, (h nid) ▸ h2⟩
  · intro hn
    rw [← h nid]
    exact (hInv nid).2 hn

theorem CapInv_bump {mpn : Int} {ptab : PTab} {N : Nat → Nat} {c : Nat}
    {e : ParentEntry} (hInv : CapInv mpn ptab N) (he : alookup c ptab = some e)
    (hlt : (e.count : Int) < mpn) :
    CapInv mpn (bumpCount ptab c)
      (fun nid => if nid = c then N nid + 1 else N nid) := by
  intro nid
  by_cases h : nid = c
  · subst h
    constructor
    · intro e' he'
      rw [alookup_bumpCount_self, he, Option.map_some'] at he'
      have hee : e' = ⟨e.weight, e.count + 1⟩ := (Option.some.inj he').symm
      obtain ⟨h1, h2⟩ := (hInv nid).1 e he
      subst hee
      refine ⟨by push_cast; omega, ?_⟩
      simp [h2]
    · intro hn
      rw [alookup_bumpCount_self, he] at hn
      simp at hn
  · constructor
    · intro e' he'
      rw [alookup_bumpCount_other ptab c nid h] at he'
      obtain ⟨h1, h2⟩ := (hInv nid).1 e' he'
      exact ⟨h1, by simp [h, h2]⟩
    · intro hn
      rw [alookup_bumpCount_other ptab c nid h] at hn
      simp only [if_neg h]
      exact (hInv nid).2 hn

/-- Every instance in the list is still unassigned. -/
def AllUnassigned (l : List Instance) : Prop := ∀ inst ∈ l, inst.assigned = none

/-- Every still-provisional instance in the list is unassigned (the spec's
invariant "an instance is either provisional (no chosen node) or has
exactly one chosen node"). -/
def ProvUnassigned (l : List Instance) : Prop :=
  ∀ inst ∈ l, inst.provisional = true → inst.assigned = none

theorem assignedTo_of_allUnassigned {l : List Instance} (h : AllUnassigned l)
    (nid : Nat) : assignedTo l nid = 0 := by
  induction l with
  | nil => rfl
  | cons a rest ih =>
    have ha := h a (List.mem_cons_self _ _)
    have hrest : AllUnassigned rest := fun i hi => h i (List.mem_cons_of_mem _ hi)
    simp [assignedTo, ha, ih hrest]

theorem someCount_of_allUnassigned {l : List Instance} (h : AllUnassigned l) :
    someCount l = 0 := by
  induction l with
  | nil => rfl
  | cons a rest ih =>
    have ha := h a (List.mem_cons_self _ _)
    have hrest : AllUnassigned rest := fun i hi => h i (List.mem_cons_of_mem _ hi)
    simp [someCount, ha, ih hrest]

theorem preferred_node_provisional {env : Nat → NodeInfo} {ptab : PTab}
    {inst : Instance} {optimal : Int} {n : Nat}
    (h : preferred_node env ptab inst optimal = some n) :
    inst.provisional = true := by
  unfold preferred_node at h
  by_cases hc : inst.running_on = none ∨ inst.provisional = false ∨ inst.failed = true
  · rw [if_pos hc] at h
    exact absurd h (by simp)
  · push_neg at hc
    cases hp : inst.provisional with
    | false => exact absurd hp hc.2.1
    | true => rfl

theorem assign_pass1_spec (f : AssignFn) (env : Nat → NodeInfo) (coll : Collective)
    (mt mpn optimal : Int) (ac : Bool) (hf : assignRespectsScores f)
    (l : List Instance) :
    ∀ (ptab : PTab) (assigned : Int) (N : Nat → Nat),
      AllUnassigned l → CapInv mpn ptab N → assigned ≤ mt →
      CapInv mpn (assign_pass1 f env coll mt mpn optimal ac l ptab assigned).2.1
        (fun nid => N nid +
          assignedTo (assign_pass1 f env coll mt mpn optimal ac l ptab assigned).1 nid)
      ∧ ProvUnassigned (assign_pass1 f env coll mt mpn optimal ac l ptab assigned).1
      ∧ (assign_pass1 f env coll mt mpn optimal ac l ptab assigned).2.2 ≤ mt
      ∧ (assign_pass1 f env coll mt mpn optimal ac l ptab assigned).2.2 =
          assigned +
            (someCount (assign_pass1 f env coll mt mpn optimal ac l ptab assigned).1 : Int) := by
  induction l with
  | nil =>
    intro ptab assigned N hU hInv hle
    simp only [assign_pass1]
    refine ⟨CapInv_congr (fun nid => by simp [assignedTo]) hInv, ?_, hle, by
      simp [someCount]⟩
    intro i hi
    exact absurd hi (by simp)
  | cons inst rest ih =>
    intro ptab assigned N hU hInv hle
    have hUr : AllUnassigned rest := fun i hi => hU i (List.mem_cons_of_mem _ hi)
    have hinst : inst.assigned = none := hU inst (List.mem_cons_self _ _)
    by_cases hguard : mt ≤ assigned
    · simp only [assign_pass1]
      rw [if_pos hguard]
      refine ⟨CapInv_congr (fun nid => by
          rw [assignedTo_of_allUnassigned hU]; simp) hInv, ?_, hle, ?_⟩
      · intro i hi _
        exact hU i hi
      · rw [someCount_of_allUnassigned hU]
        simp
    · have hass0 : (append_parent_colocation coll inst ac).assigned = none := hinst
      simp only [assign_pass1]
      rw [if_neg hguard]
      cases hpn : preferred_node env ptab (append_parent_colocation coll inst ac)
          optimal with
      | none =>
        simp only []
        obtain ⟨j1, j2, j3, j4⟩ := ih ptab assigned N hUr hInv hle
        refine ⟨CapInv_congr (fun nid => ?_) j1, ?_, j3, ?_⟩
        · simp [assignedTo, hass0]
        · intro i hi
          rcases List.mem_cons.mp hi with h | h
          · subst h
            intro _
            exact hass0
          · exact j2 i h
        · rw [j4]
          simp [someCount, hass0]
      | some cur =>
        simp only []
        have hprov0 : (append_parent_colocation coll inst ac).provisional = true :=
          preferred_node_provisional hpn
        rcases assign_instance_spec f env ptab (append_parent_colocation coll inst ac)
            (some cur) mpn hf hprov0 hass0 with
          ⟨hok, hpt, has⟩ | ⟨c, e, he, hec, hok, hpt, has, hpr⟩
        · have hif : (if (assign_instance f env ptab
              (append_parent_colocation coll inst ac) (some cur) mpn).ok = true
              then assigned + 1 else assigned) = assigned := by
            rw [hok]
            simp
          rw [hpt, hif]
          obtain ⟨j1, j2, j3, j4⟩ := ih ptab assigned N hUr hInv hle
          refine ⟨CapInv_congr (fun nid => ?_) j1, ?_, j3, ?_⟩
          · simp [assignedTo, has]
          · intro i hi
            rcases List.mem_cons.mp hi with h | h
            · subst h
              intro _
              exact has
            · exact j2 i h
          · rw [j4]
            simp [someCount, has]
        · have hif : (if (assign_instance f env ptab
              (append_parent_colocation coll inst ac) (some cur) mpn).ok = true
              then assigned + 1 else assigned) = assigned + 1 := by
            rw [hok]
            simp
          rw [hpt, hif]
          have hle1 : assigned + 1 ≤ mt := by omega
          obtain ⟨j1, j2, j3, j4⟩ :=
            ih (bumpCount ptab c) (assigned + 1)
              (fun nid => if nid = c then N nid + 1 else N nid) hUr
              (CapInv_bump hInv he hec) hle1
          refine ⟨CapInv_congr (fun nid => ?_) j1, ?_, j3, ?_⟩
          · simp only [assignedTo, has]
            by_cases hnc : nid = c
            · subst hnc
              simp
              omega
            · have : ¬(c = nid) := fun hx => hnc hx.symm
              simp [hnc, this]
          · intro i hi
            rcases List.mem_cons.mp hi with h | h
            · subst h
              intro hp
              rw [hpr] at hp
              exact absurd hp (by simp)
            · exact j2 i h
          · rw [j4]
            simp [someCount, has]
            omega

theorem resource_location_assigned (inst : Instance) (node : Option Nat)
    (score : Int) (tag : String) :
    (resource_location inst node score tag).assigned = inst.assigned := rfl

theorem assign_pass2_spec (f : AssignFn) (env : Nat → NodeInfo)
    (mt mpn : Int) (hf : assignRespectsScores f) (l : List Instance) :
    ∀ (ptab : PTab) (assigned A : Int) (N : Nat → Nat),
      ProvUnassigned l →
      CapInv mpn ptab (fun nid => N nid + assignedTo l nid) →
      assigned ≤ mt →
      assigned = A + (someCount l : Int) →
      CapInv mpn (assign_pass2 f env mt mpn l ptab assigned).2.1
        (fun nid => N nid + assignedTo (assign_pass2 f env mt mpn l ptab assigned).1 nid)
      ∧ (assign_pass2 f env mt mpn l ptab assigned).2.2 ≤ mt
      ∧ (assign_pass2 f env mt mpn l ptab assigned).2.2 =
          A + (someCount (assign_pass2 f env mt mpn l ptab assigned).1 : Int) := by
  induction l with
  | nil =>
    intro ptab assigned A N hP hInv hle hA
    simp only [assign_pass2]
    exact ⟨hInv, hle, hA⟩
  | cons inst rest ih =>
    intro ptab assigned A N hP hInv hle hA
    have hPr : ProvUnassigned rest := fun i hi => hP i (List.mem_cons_of_mem _ hi)
    simp only [assign_pass2, assign_pass2_visit]
    by_cases hprov : inst.provisional = false
    · rw [if_pos hprov]
      simp only []
      obtain ⟨j1, j2, j3⟩ := ih ptab assigned
        (A + (if inst.assigned.isSome then 1 else 0))
        (fun nid => N nid + (if inst.assigned = some nid then 1 else 0))
        hPr
        (CapInv_congr (fun nid => by simp [assignedTo]; omega) hInv)
        hle
        (by rw [hA]; simp [someCount]; ring)
      refine ⟨CapInv_congr (fun nid => by simp [assignedTo]; omega) j1, j2, ?_⟩
      rw [j3]
      simp [someCount]
      ring
    · rw [if_neg hprov]
      have hprov' : inst.provisional = true := by
        cases hx : inst.provisional
        · exact absurd hx hprov
        · rfl
      have hinst : inst.assigned = none := hP inst (List.mem_cons_self _ _) hprov'
      by_cases hlim : mt ≤ assigned
      · rw [if_pos hlim]
        simp only []
        obtain ⟨j1, j2, j3⟩ := ih ptab assigned A
          (fun nid => N nid + (if (resource_location inst none scoreNegInfinity
            "collective_limit_reached").assigned = some nid then 1 else 0))
          hPr
          (CapInv_congr (fun nid => by
            simp [assignedTo, resource_location_assigned, hinst]) hInv)
          hle
          (by rw [hA]; simp [someCount, resource_location_assigned, hinst])
        refine ⟨CapInv_congr (fun nid => by
            simp [assignedTo, resource_location_assigned, hinst]) j1, j2, ?_⟩
        rw [j3]
        simp [someCount, resource_location_assigned, hinst]
      · rw [if_neg hlim]
        simp only []
        rcases assign_instance_spec f env ptab inst none mpn hf hprov' hinst with
          ⟨hok, hpt, has⟩ | ⟨c, e, he, hec, hok, hpt, has, hpr⟩
        · have hif : (if (assign_instance f env ptab inst none mpn).ok = true
              then assigned + 1 else assigned) = assigned := by
            rw [hok]
            simp
          rw [hpt, hif]
          obtain ⟨j1, j2, j3⟩ := ih ptab assigned A
            (fun nid => N nid +
              (if (assign_instance f env ptab inst none mpn).inst.assigned = some nid
               then 1 else 0))
            hPr
            (CapInv_congr (fun nid => by simp [assignedTo, has, hinst]) hInv)
            hle
            (by rw [hA]; simp [someCount, has, hinst])
          refine ⟨CapInv_congr (fun nid => by simp [assignedTo, has]) j1, j2, ?_⟩
          rw [j3]
          simp [someCount, has]
        · have hif : (if (assign_instance f env ptab inst none mpn).ok = true
              then assigned + 1 else assigned) = assigned + 1 := by
            rw [hok]
            simp
          rw [hpt, hif]
          have hle1 : assigned + 1 ≤ mt := by omega
          have hbump : CapInv mpn (bumpCount ptab c)
              (fun nid => if nid = c then (N nid + assignedTo rest nid) + 1
                else N nid + assignedTo rest nid) :=
            CapInv_bump (CapInv_congr (fun nid => by
              simp [assignedTo, hinst]) hInv) he hec
          have hbump2 : CapInv mpn (bumpCount ptab c)
              (fun nid => (if nid = c then N nid + 1 else N nid) + assignedTo rest nid) :=
            CapInv_congr (fun nid => by
              by_cases hnc : nid = c <;> simp [hnc] <;> omega) hbump
          obtain ⟨j1, j2, j3⟩ := ih (bumpCount ptab c) (assigned + 1) (A + 1)
            (fun nid => if nid = c then N nid + 1 else N nid)
            hPr hbump2 hle1
            (by rw [hA]; simp [someCount, hinst]; ring)
          refine ⟨CapInv_congr (fun nid => ?_) j1, j2, ?_⟩
          · simp only [assignedTo, has]
            by_cases hnc : nid = c
            · subst hnc
              simp
              omega
            · have hcn : ¬(c = nid) := fun hx => hnc hx.symm
              simp [hnc, hcn]
          · rw [j3]
            simp [someCount, has]
            ring

/-- C1: after `pcmk__assign_instances` on a fresh collective (every instance
still provisional and unassigned, the node counts about to be reset), with
nonnegative caps and a delegated assign callback that respects scores, the
assigned counter and the number of instances actually assigned are at most
`max_total`, and for every node the number of instances assigned to it is at
most `max_per_node`. -/
theorem assign_instances_respects_caps
    (f : AssignFn) (env : Nat → NodeInfo) (coll : Collective)
    (instances : List Instance) (max_total max_per_node : Int)
    (hf : assignRespectsScores f)
    (hmt : 0 ≤ max_total) (hmpn : 0 ≤ max_per_node)
    (hfresh : ∀ inst ∈ instances, inst.provisional = true ∧ inst.assigned = none) :
    (pcmk_assign_instances f env coll instances max_total max_per_node).assigned
        ≤ max_total
    ∧ (someCount (pcmk_assign_instances f env coll instances
          max_total max_per_node).instances : Int) ≤ max_total
    ∧ ∀ nid, (assignedTo (pcmk_assign_instances f env coll instances
          max_total max_per_node).instances nid : Int) ≤ max_per_node := by
  have hU : AllUnassigned instances := fun i hi => (hfresh i hi).2
  have hInv0 : CapInv max_per_node (reset_allowed_node_counts env coll.allowed).1
      (fun _ => 0) := by
    intro nid
    constructor
    · intro e he
      rw [alookup_reset] at he
      cases hl : alookup nid coll.allowed with
      | none =>
        rw [hl] at he
        simp at he
      | some e0 =>
        rw [hl, Option.map_some'] at he
        have hee : e = ⟨e0.weight, 0⟩ := (Option.some.inj he).symm
        subst hee
        exact ⟨by simpa using hmpn, rfl⟩
    · intro _
      rfl
  obtain ⟨p1a, p1b, p1c, p1d⟩ :=
    assign_pass1_spec f env coll max_total max_per_node
      (optimal_per_node max_total (reset_allowed_node_counts env coll.allowed).2)
      (decide (0 ≤ max_total) &&
        decide (max_total < ((reset_allowed_node_counts env coll.allowed).2 : Int)))
      hf instances
      (reset_allowed_node_counts env coll.allowed).1 0 (fun _ => 0)
      hU hInv0 hmt
  obtain ⟨p2a, p2b, p2c⟩ :=
    assign_pass2_spec f env max_total max_per_node hf
      (assign_pass1 f env coll max_total max_per_node
        (optimal_per_node max_total (reset_allowed_node_counts env coll.allowed).2)
        (decide (0 ≤ max_total) &&
          decide (max_total < ((reset_allowed_node_counts env coll.allowed).2 : Int)))
        instances (reset_allowed_node_counts env coll.allowed).1 0).1
      (assign_pass1 f env coll max_total max_per_node
        (optimal_per_node max_total (reset_allowed_node_counts env coll.allowed).2)
        (decide (0 ≤ max_total) &&
          decide (max_total < ((reset_allowed_node_counts env coll.allowed).2 : Int)))
        instances (reset_allowed_node_counts env coll.allowed).1 0).2.1
      (assign_pass1 f env coll max_total max_per_node
        (optimal_per_node max_total (reset_allowed_node_counts env coll.allowed).2)
        (decide (0 ≤ max_total) &&
          decide (max_total < ((reset_allowed_node_counts env coll.allowed).2 : Int)))
        instances (reset_allowed_node_counts env coll.allowed).1 0).2.2
      0 (fun _ => 0) p1b p1a p1c p1d
  simp only [pcmk_assign_instances]
  refine ⟨p2b, by omega, ?_⟩
  intro nid
  have hcap := p2a nid
  cases hl : alookup nid
      (assign_pass2 f env max_total max_per_node
        (assign_pass1 f env coll max_total max_per_node
          (optimal_per_node max_total (reset_allowed_node_counts env coll.allowed).2)
          (decide (0 ≤ max_total) &&
            decide (max_total < ((reset_allowed_node_counts env coll.allowed).2 : Int)))
          instances (reset_allowed_node_counts env coll.allowed).1 0).1
        (assign_pass1 f env coll max_total max_per_node
          (optimal_per_node max_total (reset_allowed_node_counts env coll.allowed).2)
          (decide (0 ≤ max_total) &&
            decide (max_total < ((reset_allowed_node_counts env coll.allowed).2 : Int)))
          instances (reset_allowed_node_counts env coll.allowed).1 0).2.1
        (assign_pass1 f env coll max_total max_per_node
          (optimal_per_node max_total (reset_allowed_node_counts env coll.allowed).2)
          (decide (0 ≤ max_total) &&
            decide (max_total < ((reset_allowed_node_counts env coll.allowed).2 : Int)))
          instances (reset_allowed_node_counts env coll.allowed).1 0).2.2).2.1 with
  | none =>
    have h0 := hcap.2 hl
    simp only [Nat.zero_add] at h0
    simp [h0]
    omega
  | some e =>
    obtain ⟨hc1, hc2⟩ := hcap.1 e hl
    simp only [Nat.zero_add] at hc2
    omega

/-- A delegated assign callback that never chooses a node, used as a
concrete instantiation in witnesses. -/
def nullAssignFn : AssignFn := fun _ tbl _ => (none, tbl)

theorem nullAssignFn_respects : assignRespectsScores nullAssignFn := by
  intro i tbl pref c tbl2 h
  simp [nullAssignFn] at h

/-- A concrete single-node environment for witnesses. -/
def witnessEnv : Nat → NodeInfo := fun _ => ⟨true, true⟩

/-- A concrete fresh instance for witnesses. -/
def witnessInstance : Instance :=
  ⟨0, false, true, false, false, true, none, none, [(0, 0)], [], [], []⟩

/-- A concrete collective for witnesses. -/
def witnessCollective : Collective := ⟨[(0, ⟨0, 0⟩)], [], []⟩

/-- C1 witness: a concrete call with one fresh instance and caps 1/1 keeps
the counter, the assigned-instance count and every node count within the
caps. -/
theorem assign_instances_respects_caps_witness :
    (pcmk_assign_instances nullAssignFn witnessEnv witnessCollective
        [witnessInstance] 1 1).assigned ≤ 1
    ∧ (someCount (pcmk_assign_instances nullAssignFn witnessEnv witnessCollective
          [witnessInstance] 1 1).instances : Int) ≤ 1
    ∧ ∀ nid, (assignedTo (pcmk_assign_instances nullAssignFn witnessEnv
          witnessCollective [witnessInstance] 1 1).instances nid : Int) ≤ 1 :=
  assign_instances_respects_caps nullAssignFn witnessEnv witnessCollective
    [witnessInstance] 1 1 nullAssignFn_respects (by decide) (by decide)
    (by
      intro i hi
      rw [List.mem_singleton.mp hi]
      exact ⟨rfl, rfl⟩)

/-- C7: in Pass 2, an instance reached while still provisional when the
assigned count has already reached `max_total` is not assigned: the parent
table and the counter are unchanged (no assignment is attempted), the
instance stays provisional and unassigned, and it receives a -INFINITY
resource-level location whose reason tag is `collective_limit_reached`. -/
theorem pass2_bans_when_limit_reached
    (f : AssignFn) (env : Nat → NodeInfo) (max_total max_per_node : Int)
    (ptab : PTab) (assigned : Int) (inst : Instance)
    (hprov : inst.provisional = true) (hass : inst.assigned = none)
    (hlim : max_total ≤ assigned) :
    (assign_pass2_visit f env max_total max_per_node ptab assigned inst).1 = ptab
    ∧ (assign_pass2_visit f env max_total max_per_node ptab assigned inst).2.1 =
        assigned
    ∧ (assign_pass2_visit f env max_total max_per_node ptab assigned
        inst).2.2.assigned = none
    ∧ (assign_pass2_visit f env max_total max_per_node ptab assigned
        inst).2.2.provisional = true
    ∧ (assign_pass2_visit f env max_total max_per_node ptab assigned
        inst).2.2.locations =
        inst.locations ++ [⟨"collective_limit_reached", scoreNegInfinity, none⟩] := by
  simp only [assign_pass2_visit]
  rw [if_neg (by simp [hprov]), if_pos hlim]
  exact ⟨rfl, rfl, hass, hprov, rfl⟩

/-- C7 witness: a concrete provisional instance visited when one instance is
already assigned against `max_total = 1` is banned with the
`collective_limit_reached` tag and nothing else changes. -/
theorem pass2_bans_when_limit_reached_witness :
    (assign_pass2_visit nullAssignFn witnessEnv 1 1 [] 1 witnessInstance).1 = []
    ∧ (assign_pass2_visit nullAssignFn witnessEnv 1 1 [] 1 witnessInstance).2.1 = 1
    ∧ (assign_pass2_visit nullAssignFn witnessEnv 1 1 [] 1
        witnessInstance).2.2.assigned = none
    ∧ (assign_pass2_visit nullAssignFn witnessEnv 1 1 [] 1
        witnessInstance).2.2.provisional = true
    ∧ (assign_pass2_visit nullAssignFn witnessEnv 1 1 [] 1
        witnessInstance).2.2.locations =
        witnessInstance.locations ++
          [⟨"collective_limit_reached", scoreNegInfinity, none⟩] :=
  pass2_bans_when_limit_reached nullAssignFn witnessEnv 1 1 [] 1 witnessInstance
    rfl rfl (by decide)

/-- C8: with a preferred node, `assign_instance` snapshots the (filtered)
allowed-node table before the delegated assign; if the delegate chooses a
node different from the preferred one, the table is restored to the
snapshot, the instance is unassigned — provisional again with no chosen
node — and false is returned with the parent table untouched; if the
delegate chooses the preferred node, the snapshot is discarded and the
instance keeps the table the delegate produced. -/
theorem assign_instance_preferred_rollback
    (f : AssignFn) (env : Nat → NodeInfo) (ptab : PTab) (inst : Instance)
    (p : Nat) (max_per_node : Int) (w : Int)
    (hprov : inst.provisional = true) (halloc : inst.allocating = false)
    (hlook : alookup p inst.allowed = some w) (hw : 0 ≤ w)
    (chosen : Option Nat) (tbl2 : List (Nat × Int))
    (hcall : f inst.id
        (ban_unavailable_allowed_nodes env ptab inst max_per_node).allowed (some p)
      = (chosen, tbl2)) :
    (∀ c, chosen = some c → c ≠ p →
       (assign_instance f env ptab inst (some p) max_per_node).ok = false
       ∧ (assign_instance f env ptab inst (some p) max_per_node).ptab = ptab
       ∧ (assign_instance f env ptab inst (some p) max_per_node).inst.allowed =
           (ban_unavailable_allowed_nodes env ptab inst max_per_node).allowed
       ∧ (assign_instance f env ptab inst (some p) max_per_node).inst.provisional =
           true
       ∧ (assign_instance f env ptab inst (some p) max_per_node).inst.assigned =
           none)
    ∧ (chosen = some p →
       (assign_instance f env ptab inst (some p) max_per_node).ok = true
       ∧ (assign_instance f env ptab inst (some p) max_per_node).inst.allowed = tbl2
       ∧ (assign_instance f env ptab inst (some p) max_per_node).inst.assigned =
           some p
       ∧ (assign_instance f env ptab inst (some p) max_per_node).inst.provisional =
           false) := by
  constructor
  · intro c hc hcp
    subst hc
    simp only [assign_instance]
    rw [if_neg (by simp [hprov]), if_neg (by simp [halloc]), hlook]
    simp only []
    rw [if_neg (by omega), hcall]
    simp only []
    rw [if_neg hcp]
    exact ⟨rfl, rfl, rfl, rfl, rfl⟩
  · intro hc
    subst hc
    simp only [assign_instance]
    rw [if_neg (by simp [hprov]), if_neg (by simp [halloc]), hlook]
    simp only []
    rw [if_neg (by omega), hcall]
    simp only [if_true]
    unfold finalize_assign
    cases hfp : alookup p ptab with
    | none => exact ⟨rfl, rfl, rfl, rfl⟩
    | some e => exact ⟨rfl, rfl, rfl, rfl⟩

/-- A delegated assign callback that always picks node 1, used by the C8
witness to trigger the rollback path for preferred node 0. -/
def pickOneAssignFn : AssignFn := fun _ tbl _ => (some 1, tbl)

/-- A concrete fresh instance allowed on nodes 0 and 1, for the C8
witness. -/
def witnessInstanceTwoNodes : Instance :=
  ⟨0, false, true, false, false, true, none, none, [(0, 0), (1, 0)], [], [], []⟩

/-- A concrete parent table over nodes 0 and 1, for the C8 witness. -/
def witnessPTab : PTab := [(0, ⟨0, 0⟩), (1, ⟨0, 0⟩)]

/-- C8 witness: with preferred node 0 and a delegate that picks node 1, the
assignment is rolled back — the filtered table is restored, the instance is
provisional and unassigned, and false is returned. -/
theorem assign_instance_preferred_rollback_witness :
    (assign_instance pickOneAssignFn witnessEnv witnessPTab
        witnessInstanceTwoNodes (some 0) 1).ok = false
    ∧ (assign_instance pickOneAssignFn witnessEnv witnessPTab
        witnessInstanceTwoNodes (some 0) 1).ptab = witnessPTab
    ∧ (assign_instance pickOneAssignFn witnessEnv witnessPTab
        witnessInstanceTwoNodes (some 0) 1).inst.allowed =
        (ban_unavailable_allowed_nodes witnessEnv witnessPTab
          witnessInstanceTwoNodes 1).allowed
    ∧ (assign_instance pickOneAssignFn witnessEnv witnessPTab
        witnessInstanceTwoNodes (some 0) 1).inst.provisional = true
    ∧ (assign_instance pickOneAssignFn witnessEnv witnessPTab
        witnessInstanceTwoNodes (some 0) 1).inst.assigned = none :=
  (assign_instance_preferred_rollback pickOneAssignFn witnessEnv witnessPTab
    witnessInstanceTwoNodes 0 1 0 rfl rfl rfl (by decide) (some 1)
    (ban_unavailable_allowed_nodes witnessEnv witnessPTab
      witnessInstanceTwoNodes 1).allowed rfl).1 1 rfl (by decide)

end PacemakerInstances
